import Mathlib

/-!
# Verification of the `gergle` website crawler

A shallow embedding of the `gergle` crawler (Go) into Lean 4, together with
theorems settling the specification claims about it.

Conventions of the embedding:

* Go strings are Lean `String`s; byte slices (`[]byte`) are `List Nat`.
* Go `error` values are `String` descriptions; a function returning `error`
  returns `Option String` (`none` = nil error).
* `net/url`, `net/http` and `regexp` are external collaborators: URL parsing,
  reference resolution and regular-expression matching are passed in as
  abstract parameters, while every piece of logic written in the repository
  itself (string sanitisation, the follower policies, the parse loops, the
  crawl orchestration) is embedded concretely from the source.
* `uint16` depths are modelled as `Nat`; none of the claims exercises
  wrap-around at 65536.
-/

namespace Gergle

/-! ## Go string primitives used by the repository -/

/-- Go's `strings.Index(s, "#")` restricted to the use made of it by
`sanitizeURL`: everything strictly before the first `'#'`.  Go's
`us[:f]` (with `f` the index of the first `'#'`, or the whole string when
`f == -1`) is exactly `takeWhile (· ≠ '#')`. -/
def cutAtHash (l : List Char) : List Char :=
  l.takeWhile (fun c => c ≠ '#')

/-- Go's `strings.TrimRight(s, "/")`: remove all trailing `'/'` characters. -/
def trimRightSlash (l : List Char) : List Char :=
  (l.reverse.dropWhile (fun c => c = '/')).reverse

/-- The function `sanitizeURL` from `gergle.go` (duplicated as
`UnseenFollower.sanitizeURL`): drop the fragment (everything from the first
`'#'`), then strip trailing slashes.  It operates on the serialised form
`u.String()` of a URL. -/
def sanitizeURL (s : String) : String :=
  ⟨trimRightSlash (cutAtHash s.data)⟩

/-- Go's `strings.TrimLeft(rule, "/")`. -/
def goTrimLeftSlash (s : String) : String :=
  ⟨s.data.dropWhile (fun c => c = '/')⟩

/-- The characters `regexp.QuoteMeta` escapes (Go's `specialBytes`). -/
def isRegexSpecial (c : Char) : Bool :=
  c ∈ ['\\', '.', '+', '*', '?', '(', ')', '|', '[', ']',
    Char.ofNat 123, Char.ofNat 125, '^', '$']

/-- Go's `regexp.QuoteMeta`: prefix every special character with a backslash. -/
def goQuoteMeta (s : String) : String :=
  ⟨s.data.foldr (fun c acc => if isRegexSpecial c then '\\' :: c :: acc else c :: acc) []⟩

/-- Go's `strings.Replace(s, "\\*", "*", -1)` on the character list: rewrite
every (non-overlapping, left-to-right) occurrence of `\*` to `*`. -/
def replaceEscStar : List Char → List Char
  | [] => []
  | '\\' :: '*' :: rest => '*' :: replaceEscStar rest
  | c :: rest => c :: replaceEscStar rest

/-- Whether `sub` occurs as a contiguous sublist of `l`. -/
def listContainsSub (sub : List Char) : List Char → Bool
  | [] => sub.isEmpty
  | c :: rest => sub.isPrefixOf (c :: rest) || listContainsSub sub rest

/-- Go's `strings.Contains(s, sub)`. -/
def goContainsSubstr (s sub : String) : Bool :=
  listContainsSub sub.data s.data

/-- Go's `strings.ToLower` for ASCII content (the only case the
repository's content-type checks exercise): lower-case the A-Z range. -/
def goToLower (s : String) : String :=
  ⟨s.data.map (fun c => if 'A' ≤ c ∧ c ≤ 'Z' then Char.ofNat (c.toNat + 32) else c)⟩

/-- The first element of Go's `strings.Split(s, "/")`: everything before
the first `'/'` (the whole string when there is none). -/
def goSplitFirst (s : String) : String :=
  ⟨s.data.takeWhile (fun c => c ≠ '/')⟩

/-- Go's `bytes.IndexByte(body, b)`: index of the first occurrence, `-1` if
absent. -/
def goIndexByte (l : List Nat) (b : Nat) : Int :=
  match l.findIdx? (fun x => x = b) with
  | some i => (i : Int)
  | none => -1

/-- The count limit of `regexp.FindAllSubmatch(b, n)`: for `n < 0` all
matches are returned, otherwise at most `n` (the first `n`). -/
def goFindLimit (n : Int) {α : Type} (xs : List α) : List α :=
  if n < 0 then xs else xs.take n.toNat

/-! ## Domain model (`domain.go`)

`url.URL` is modelled by the components the repository touches, and
`GoURL.render` is `(*url.URL).String()` for URLs whose components need no
percent-escaping (all URLs in the repository's tests are of this form). -/

structure GoURL where
  scheme : String
  host : String
  path : String
  fragment : String
deriving DecidableEq, Repr

/-- The serialisation `(*url.URL).String()` for escape-free URLs: `scheme:`, then `//host`,
then the path, then `#fragment` when the fragment is nonempty. -/
def GoURL.render (u : GoURL) : String :=
  (if u.scheme = "" then "" else u.scheme ++ ":")
    ++ (if u.host = "" then "" else "//" ++ u.host)
    ++ u.path
    ++ (if u.fragment = "" then "" else "#" ++ u.fragment)

/-- The type `Link` from `domain.go`: a reference discovered on a page.  (The
`gergle.go` generation of `Link` has no `Type` field; those links are
embedded with `type := "anchor"`.) -/
structure Link where
  type : String
  url : GoURL
  external : Bool
  depth : Nat
deriving DecidableEq, Repr

/-- The type `Page` from `domain.go`: the outcome of attempting one `Task`.  (The
`gergle.go` generation of `Page` has no `Assets` field; its pages are
embedded with `assets = []`.) -/
structure Page where
  url : GoURL
  processed : Bool
  depth : Nat
  links : List Link
  assets : List Link
  error : Option String
deriving DecidableEq, Repr

/-- The type `Task` from `domain.go`: a pending unit of work. -/
structure Task where
  url : GoURL
  depth : Nat
deriving DecidableEq, Repr

/-- The constructor `LinkTask` from `domain.go`. -/
def LinkTask (link : Link) : Task :=
  { url := link.url, depth := link.depth }

/-- The constructor `ErrorPage` from `domain.go`: a failed fetch/parse still produces a
`Page`, with `Processed == false`, empty link/asset lists and the error. -/
def ErrorPage (pageURL : GoURL) (depth : Nat) (err : String) : Page :=
  { url := pageURL, processed := false, depth := depth,
    links := [], assets := [], error := some err }

/-- The central `Page` invariant (spec §3): exactly one of
{processed, no error} and {not processed, error set} holds, and an
unprocessed page carries no links or assets. -/
def pageInvariant (p : Page) : Prop :=
  ((p.processed = true ∧ p.error = none) ∧ ¬(p.processed = false ∧ p.error.isSome)
    ∨ (p.processed = false ∧ p.error.isSome) ∧ ¬(p.processed = true ∧ p.error = none))
  ∧ (p.processed = false → p.links = [] ∧ p.assets = [])

instance (p : Page) : Decidable (pageInvariant p) := by
  unfold pageInvariant; infer_instance

/-! ## Follower policy chain (`follower.go`) -/

/-- The `Follower` interface: `Follow(link) error`, with `none` for a nil
error ("allowed").  A member of a `UnanimousFollower` is an arbitrary
follower, embedded as its `Follow` function. -/
abbrev Follower : Type := Link → Option String

/-- The type `UnanimousFollower`: a slice of member followers. -/
abbrev UnanimousFollower : Type := List Follower

/-- The method `UnanimousFollower.Follow`: consult members in order, return the first
non-nil error, nil if every member returns nil. -/
def UnanimousFollower.Follow : UnanimousFollower → Link → Option String
  | [], _ => none
  | f :: rest, link =>
    match f link with
    | some err => some err
    | none => UnanimousFollower.Follow rest link

/-- The type `UnseenFollower`: the stateful dedup policy.  The Go `map[string]bool`
(only ever set to `true`) is a set of canonicalised URL strings. -/
structure UnseenFollower where
  seen : List String
deriving DecidableEq, Repr

/-- The method `UnseenFollower.sanitizeURL` (textually identical to the top-level
`sanitizeURL`), applied to `u.String()`. -/
def UnseenFollower.sanitizeURL (u : GoURL) : String :=
  Gergle.sanitizeURL u.render

/-- The method `UnseenFollower.hasSeen` (the `RLock`-protected read). -/
def UnseenFollower.hasSeen (f : UnseenFollower) (href : String) : Bool :=
  f.seen.contains href

/-- The method `UnseenFollower.recordSeen` (the `Lock`-protected write). -/
def UnseenFollower.recordSeen (f : UnseenFollower) (href : String) : UnseenFollower :=
  ⟨href :: f.seen⟩

/-- The method `UnseenFollower.Follow` as one sequential call: sanitise, check, then
record; returns the error (if any) and the updated follower state. -/
def UnseenFollower.Follow (f : UnseenFollower) (link : Link) :
    Option String × UnseenFollower :=
  let href := UnseenFollower.sanitizeURL link.url
  if f.hasSeen href then (some "Not following seen link", f)
  else (none, f.recordSeen href)

/-- The constructor `NewUnseenFollower`: record each pre-seen URL. -/
def NewUnseenFollower (seen : List GoURL) : UnseenFollower :=
  seen.foldl (fun f u => f.recordSeen (UnseenFollower.sanitizeURL u)) ⟨[]⟩

/-- A sequence of sequential `Follow` calls, returning the per-call results
and the final state. -/
def UnseenFollower.followSeq (f : UnseenFollower) :
    List Link → List (Option String) × UnseenFollower
  | [] => ([], f)
  | l :: ls =>
    let r := f.Follow l
    let rs := r.2.followSeq ls
    (r.1 :: rs.1, rs.2)

/-! ### Two concurrent `UnseenFollower.Follow` invocations

`Follow` takes the `RWMutex` twice: once (read) inside `hasSeen` and once
(write) inside `recordSeen`.  Between the two, another goroutine may run
either of its own critical sections.  The model below interleaves the two
lock-protected sections of two concurrent `Follow(link)` calls on the same
shared `seen` set; each thread state records how far its call has got. -/

inductive FollowThread where
  /-- About to execute `hasSeen href`. -/
  | start (href : String)
  /-- `hasSeen` returned `sawSeen`; about to branch (and `recordSeen`). -/
  | checked (href : String) (sawSeen : Bool)
  /-- The call returned `res`. -/
  | finished (res : Option String)
deriving DecidableEq, Repr

/-- One atomic (lock-protected) step of a `Follow` invocation. -/
def followThreadStep (seen : List String) :
    FollowThread → List String × FollowThread
  | .start href => (seen, .checked href (seen.contains href))
  | .checked _ true => (seen, .finished (some "Not following seen link"))
  | .checked href false => (href :: seen, .finished none)
  | .finished r => (seen, .finished r)

/-- State of two concurrent invocations sharing one seen-set. -/
structure FollowPair where
  seen : List String
  threadA : FollowThread
  threadB : FollowThread
deriving DecidableEq, Repr

/-- Run one step of thread A (`true`) or thread B (`false`). -/
def followPairStep (p : FollowPair) : Bool → FollowPair
  | true =>
    let s := followThreadStep p.seen p.threadA
    { p with seen := s.1, threadA := s.2 }
  | false =>
    let s := followThreadStep p.seen p.threadB
    { p with seen := s.1, threadB := s.2 }

/-- Run a whole interleaving (a list of thread choices). -/
def followPairRun (p : FollowPair) : List Bool → FollowPair
  | [] => p
  | c :: cs => followPairRun (followPairStep p c) cs

/-- Both invocations of `Follow` on the same not-yet-seen URL, under the
interleaving in which both `hasSeen` reads run before either
`recordSeen` write. -/
def followPairRace (href : String) : FollowPair :=
  followPairRun ⟨[], .start href, .start href⟩ [true, false, true, false]

/-! ### Disallow-rule followers -/

/-- The function `parseDisallowRule` (`gergle.go`) / the rule compilation inside
`NewRobotsDisallowFollower` (`follower.go`): build the pattern string
`"^/?" + Replace(QuoteMeta(TrimLeft(rule, "/")), "\\*", "*", -1)`.
`regexp.Compile` itself is external; for patterns produced from the
claim's inputs it succeeds, so compilation is modelled as total and the
embedding keeps the pattern string as the regexp's `String()` form. -/
def parseDisallowRule (rule : String) : String :=
  "^/?" ++ ⟨replaceEscStar (goQuoteMeta (goTrimLeftSlash rule)).data⟩

/-- The type `RegexpDisallowFollower`: its `Rules` slice.  `NewRobotsDisallowFollower`
starts from `make([]*regexp.Regexp, len(disallowRule))` — a slice of
`len(disallowRule)` nil pointers — and then `append`s each compiled rule,
so a `none` entry is a nil `*regexp.Regexp`. -/
def NewRobotsDisallowFollower (disallowRule : List String) : List (Option String) :=
  List.replicate disallowRule.length none
    ++ disallowRule.map (fun rule => some (parseDisallowRule rule))

/-- The method `RegexpDisallowFollower.Follow`, parameterised by the (external) regexp
matcher `matches pattern path`.  The result is `none` when the loop
dereferences a nil `*regexp.Regexp` (a Go runtime panic); otherwise
`some res` with `res` the returned error value. -/
def RegexpDisallowFollower.Follow (rxMatch : String → String → Bool) :
    List (Option String) → Link → Option (Option String)
  | [], _ => some none
  | none :: _, _ => none
  | some rule :: rest, link =>
    if rxMatch rule link.url.path then
      some (some ("Link disallowed by rule " ++ rule))
    else
      RegexpDisallowFollower.Follow rxMatch rest link

/-! ## Page parsing (`parser.go` / `gergle.go`)

The regular expressions (`baseRegex`, `anchorRegex`, `assetRegex`) and the
`net/url` functions are external collaborators; they enter the embedding
as the abstract oracles below.  Everything else — the NUL-index count
limit, the skip-on-parse-error loops, the status/content-type/body
branches — is repository code and is embedded concretely. -/

/-- The extraction results of the parser's regular expressions on a body:
all capture-group matches, *unlimited* (the `n` limit that
`FindAllSubmatch` applies is part of the embedded repository code). -/
structure RegexOracle where
  /-- `baseRegex.FindSubmatch(body)`: capture 1 of the first match. -/
  baseHref : List Nat → Option String
  /-- `anchorRegex.FindAllSubmatch(body, -1)`: capture 1 of every match. -/
  anchorHrefs : List Nat → List String
  /-- `assetRegex.FindAllSubmatch(body, -1)`: captures 1 (asset type) and
  2 (href) of every match. -/
  assetTags : List Nat → List (String × String)

/-- The `net/url` operations used by the repository. -/
structure URLLib where
  /-- `url.Parse` (`none` = parse error). -/
  parse : String → Option GoURL
  /-- `base.ResolveReference(u)`. -/
  resolve : GoURL → GoURL → GoURL

/-- An `http.Response` as consumed by the parser: status code, the
`Content-Type` header, the result of `ioutil.ReadAll(resp.Body)` (which
may fail), and `resp.Request.URL`. -/
structure Response where
  statusCode : Nat
  contentType : String
  body : Except String (List Nat)
  requestURL : GoURL

/-- The constructor `AssetLink` from `domain.go`: parse the href, resolve it against the
base, and mark it external when scheme or host differs. -/
def AssetLink (lib : URLLib) (assetType href : String) (base : GoURL)
    (depth : Nat) : Option Link :=
  match lib.parse href with
  | none => none
  | some hrefUrl =>
    let abs := lib.resolve base hrefUrl
    some { type := assetType, url := abs,
           external := decide (abs.scheme ≠ base.scheme) || decide (abs.host ≠ base.host),
           depth := depth }

/-- The constructor `AnchorLink` from `domain.go` (also `FollowLink` from `gergle.go`,
whose `Link` has no type tag). -/
def AnchorLink (lib : URLLib) (href : String) (base : GoURL) (depth : Nat) :
    Option Link :=
  AssetLink lib "anchor" href base depth

/-- The function `parseLinks` (`gergle.go`) / `RegexPageParser.parseLinks`: take the
anchor matches limited by `n := bytes.IndexByte(body, 0)` (so the position
of the first NUL byte bounds the number of matches — `-1`, i.e. no NUL,
means unlimited), and keep those hrefs that parse, skipping the rest. -/
def parseLinks (rx : RegexOracle) (lib : URLLib) (base : GoURL)
    (body : List Nat) (depth : Nat) : List Link :=
  (goFindLimit (goIndexByte body 0) (rx.anchorHrefs body)).filterMap
    (fun href => AnchorLink lib href base depth)

/-- The method `RegexPageParser.parseAssets`: same NUL-derived limit, over the asset
regex. -/
def parseAssets (rx : RegexOracle) (lib : URLLib) (base : GoURL)
    (body : List Nat) (depth : Nat) : List Link :=
  (goFindLimit (goIndexByte body 0) (rx.assetTags body)).filterMap
    (fun tag => AssetLink lib tag.1 tag.2 base depth)

/-- The function `parseBase` / `RegexPageParser.parseBase`: honour an in-body
`<base href>` when present and parseable, else the response's own URL. -/
def parseBase (rx : RegexOracle) (lib : URLLib) (resp : Response)
    (body : List Nat) : GoURL :=
  match rx.baseHref body with
  | some b =>
    match lib.parse b with
    | some baseUrl => lib.resolve resp.requestURL baseUrl
    | none => resp.requestURL
  | none => resp.requestURL

/-- The method `RegexPageParser.Parse` (`parser.go`): non-200 status, non-`text/*`
content type and unreadable bodies become `ErrorPage`s; otherwise a
processed page with the parsed links and assets at `depth + 1`. -/
def RegexPageParser.Parse (rx : RegexOracle) (lib : URLLib) (task : Task)
    (resp : Response) : Page :=
  if resp.statusCode ≠ 200 then
    ErrorPage task.url task.depth "Non-200 response"
  else if goSplitFirst (goToLower resp.contentType) ≠ "text" then
    ErrorPage task.url task.depth "'Content-Type' is not text/*"
  else
    match resp.body with
    | .error e => ErrorPage task.url task.depth e
    | .ok body =>
      let base := parseBase rx lib resp body
      { url := task.url, processed := true, depth := task.depth,
        links := parseLinks rx lib base body (task.depth + 1),
        assets := parseAssets rx lib base body (task.depth + 1),
        error := none }

/-- The function `parsePage` (`gergle.go`): like `Parse` but the content-type check is
`strings.Contains(ToLower(mime), "html")` and the `Page` generation has no
assets. -/
def parsePage (rx : RegexOracle) (lib : URLLib) (pageUrl : GoURL)
    (depth : Nat) (resp : Response) : Page :=
  if resp.statusCode ≠ 200 then
    ErrorPage pageUrl depth "Non-200 response"
  else if ¬ goContainsSubstr (goToLower resp.contentType) "html" then
    ErrorPage pageUrl depth "Doesn't look like HTML"
  else
    match resp.body with
    | .error e => ErrorPage pageUrl depth e
    | .ok body =>
      let base := parseBase rx lib resp body
      { url := pageUrl, processed := true, depth := depth,
        links := parseLinks rx lib base body (depth + 1),
        assets := [], error := none }

/-! ## Fetchers (`fetcher.go`) -/

/-- The type `HTTPFetcher`: an HTTP client (`transport`, the external round trip,
which either fails or yields a `Response`) and a `ResponsePageParser`
(the interface, embedded as its `Parse` function). -/
structure HTTPFetcher where
  transport : Task → Except String Response
  parser : Task → Response → Page

/-- The method `HTTPFetcher.Fetch`: transport errors become `ErrorPage`s, successful
responses are delegated to the parser. -/
def HTTPFetcher.Fetch (h : HTTPFetcher) (task : Task) : Page :=
  match h.transport task with
  | .error e => ErrorPage task.url task.depth e
  | .ok resp => h.parser task resp

/-- The type `MockFetcher`: preconfigured pages keyed by exact URL string. -/
structure MockFetcher where
  pages : List (String × Page)

/-- The constructor `NewMockFetcher` (duplicate preset URLs are not exercised by any
claim, so the first-match lookup below agrees with the Go map). -/
def NewMockFetcher (pages : List Page) : MockFetcher :=
  ⟨pages.map (fun p => (p.url.render, p))⟩

/-- The method `MockFetcher.Fetch`: the preset page, or an `ErrorPage` for unknown
URLs. -/
def MockFetcher.Fetch (m : MockFetcher) (task : Task) : Page :=
  match m.pages.lookup task.url.render with
  | some page => page
  | none => ErrorPage task.url task.depth "Page not found"

/-- The method `RateLimitedFetcher.Fetch`: wait for the shared ticker (pure timing,
no data effect), then delegate to the wrapped fetcher. -/
def RateLimitedFetcher.Fetch (fetcher : Task → Page) (task : Task) : Page :=
  fetcher task

/-- The per-task processing inside the `crawl` worker loop (`gergle.go`):
`resp, err := client.Get(...)`, then the `if err != nil` branch builds an
`ErrorPage` — but the subsequent `resp.Body.Close()` runs
*unconditionally*, and on a transport error `client.Get` returns a nil
response, so that line is a nil-pointer dereference: an unrecovered
runtime panic that kills the process before the page reaches the output
channel.  The result is therefore `none` (panic, no `Page`) on a
transport error, and `some` of the parsed page otherwise (with a real
response, the `Close()` is harmless). -/
def workerProcess (rx : RegexOracle) (lib : URLLib)
    (transport : Task → Except String Response) (task : Task) : Option Page :=
  match transport task with
  | .error _ => none
  | .ok resp => some (parsePage rx lib task.url task.depth resp)

/-! ## The crawl orchestrator (`crawl` in `gergle.go`)

`crawl` runs `numWorkers` worker goroutines, one link-filter goroutine and
the main goroutine (which waits on the `unexplored` counter and closes the
channels).  The embedding is a small-step transition system:

* `pending` and `links` are the two capacity-100 channels, as FIFO lists;
* `unexplored` is the `sync.WaitGroup` counter;
* each worker is a phase machine: dequeue-and-fetch (the fetch is external
  I/O touching no shared state, so it is folded into the dequeue step),
  emit to `out`, push the page's links one at a time (the `Add(1)` and the
  channel send are folded into one step), then `Done()`;
* the filter goroutine receives a link, applies the `follow` closure and
  the seen-map (marking seen *before* the blocking send, as in the
  source), and forwards accepted links to `pending`;
* the main goroutine's `unexplored.Wait()` enables the closing step only
  when the counter is zero.

A step is `none` exactly when that goroutine is blocked (empty channel
receive, full channel send, or a non-zero counter for the closer).  The
consumer of `out` is assumed to drain it continuously (spec §4.1), so the
emit step never blocks — this only makes the deadlock result below
stronger.  Each step also yields an event, so that a run has a trace. -/

/-- Both `pending` and `links` are `make(chan …, 100)`. -/
def chanCap : Nat := 100

/-- The event produced by one step of the crawl. -/
inductive CrawlEvent where
  | taken (t : Task)
  | emitted (t : Task) (p : Page)
  | pushedLink (t : Task) (l : Link)
  | doneTask (t : Task)
  | recvLink (l : Link)
  | dropped (l : Link)
  | accepted (l : Link)
  | enqueued (t : Task)
  | closedOut
deriving DecidableEq, Repr

/-- A worker goroutine's position in its `for task := range pending` body. -/
inductive WorkerPhase where
  | idle
  | emitting (t : Task) (p : Page)
  | pushing (t : Task) (p : Page) (rest : List Link)
deriving DecidableEq, Repr

/-- The filter goroutine's position in its `for link := range links` body. -/
inductive FilterPhase where
  | waiting
  | deciding (l : Link)
  | sending (l : Link)
deriving DecidableEq, Repr

/-- The parameters of one `crawl` invocation: the fetch behaviour
(`client.Get` + page parsing, i.e. the link graph being crawled), the seed
URL, and the `follow` closure's configuration (`maxDepth` and the compiled
disallow rules, the latter as abstract path matchers since regexp matching
is external). -/
structure CrawlEnv where
  fetch : Task → Page
  initUrl : GoURL
  maxDepth : Nat
  disallow : List (String → Bool)
  numWorkers : Nat

/-- The `follow` closure in `crawl`: reject external links, links beyond
`maxDepth`, and links whose path matches a disallow rule. -/
def followPolicy (env : CrawlEnv) (link : Link) : Bool :=
  if link.external then false
  else if link.depth > env.maxDepth then false
  else if env.disallow.any (fun rule => rule link.url.path) then false
  else true

/-- A global state of the crawl. -/
structure CrawlConfig where
  pending : List Task
  linksCh : List Link
  unexplored : Nat
  seen : List String
  workers : List WorkerPhase
  filter : FilterPhase
  out : List Page
  outClosed : Bool

/-- The goroutines of `crawl`. -/
inductive CrawlAgent where
  | worker (i : Nat)
  | filter
  | closer
deriving DecidableEq, Repr

/-- One step of one goroutine, with the event it raises; `none` when that
goroutine is blocked. -/
def crawlStep (env : CrawlEnv) (c : CrawlConfig) :
    CrawlAgent → Option (CrawlConfig × CrawlEvent)
  | .worker i =>
    match c.workers.get? i with
    | none => none
    | some .idle =>
      match c.pending with
      | [] => none
      | t :: rest =>
        some ({ c with
          pending := rest,
          workers := c.workers.set i (.emitting t (env.fetch t)) },
          .taken t)
    | some (.emitting t p) =>
      some ({ c with
        out := c.out ++ [p],
        workers := c.workers.set i (.pushing t p p.links) },
        .emitted t p)
    | some (.pushing t _ []) =>
      some ({ c with
        unexplored := c.unexplored - 1,
        workers := c.workers.set i .idle },
        .doneTask t)
    | some (.pushing t p (l :: ls)) =>
      if c.linksCh.length < chanCap then
        some ({ c with
          unexplored := c.unexplored + 1,
          linksCh := c.linksCh ++ [l],
          workers := c.workers.set i (.pushing t p ls) },
          .pushedLink t l)
      else none
  | .filter =>
    match c.filter with
    | .waiting =>
      match c.linksCh with
      | [] => none
      | l :: rest =>
        some ({ c with linksCh := rest, filter := .deciding l }, .recvLink l)
    | .deciding l =>
      if !followPolicy env l then
        some ({ c with unexplored := c.unexplored - 1, filter := .waiting },
          .dropped l)
      else if c.seen.contains (sanitizeURL l.url.render) then
        some ({ c with unexplored := c.unexplored - 1, filter := .waiting },
          .dropped l)
      else
        some ({ c with
          seen := sanitizeURL l.url.render :: c.seen,
          filter := .sending l },
          .accepted l)
    | .sending l =>
      if c.pending.length < chanCap then
        some ({ c with
          pending := c.pending ++ [LinkTask l],
          filter := .waiting },
          .enqueued (LinkTask l))
      else none
  | .closer =>
    if c.unexplored = 0 && !c.outClosed then
      some ({ c with outClosed := true }, .closedOut)
    else none

/-- The initial state: counter 1, the seed task queued, the seed URL
pre-seen, all workers idle. -/
def crawlInit (env : CrawlEnv) : CrawlConfig :=
  { pending := [⟨env.initUrl, 0⟩],
    linksCh := [],
    unexplored := 1,
    seen := [sanitizeURL env.initUrl.render],
    workers := List.replicate env.numWorkers .idle,
    filter := .waiting,
    out := [],
    outClosed := false }

/-- Run a schedule (a list of goroutine choices); a blocked goroutine's
turn is a no-op. -/
def crawlRun (env : CrawlEnv) (c : CrawlConfig) : List CrawlAgent → CrawlConfig
  | [] => c
  | a :: rest =>
    crawlRun env (match crawlStep env c a with | some s => s.1 | none => c) rest

/-- Run a schedule keeping the trace of raised events, newest first. -/
def crawlRunT (env : CrawlEnv) (c : CrawlConfig) (tr : List CrawlEvent) :
    List CrawlAgent → CrawlConfig × List CrawlEvent
  | [] => (c, tr)
  | a :: rest =>
    match crawlStep env c a with
    | some s => crawlRunT env s.1 (s.2 :: tr) rest
    | none => crawlRunT env c tr rest

/-- A complete instrumented execution from the initial state. -/
def crawlExec (env : CrawlEnv) (sched : List CrawlAgent) :
    CrawlConfig × List CrawlEvent :=
  crawlRunT env (crawlInit env) [] sched

/-- Whether every goroutine of the crawl is blocked. -/
def crawlBlocked (env : CrawlEnv) (c : CrawlConfig) : Bool :=
  ((List.range c.workers.length).all fun i => (crawlStep env c (.worker i)).isNone)
    && (crawlStep env c .filter).isNone
    && (crawlStep env c .closer).isNone

/-- A worker that is in its link-pushing phase for task `t` with page `p`
has already emitted `p` (the trace is newest first). -/
def workerPushedInv (ws : List WorkerPhase) (tr : List CrawlEvent) : Prop :=
  ∀ i t p rest, ws.get? i = some (.pushing t p rest) →
    CrawlEvent.emitted t p ∈ tr

/-- In a trace (newest first), every link submission for a task is
preceded (further towards the old end) by the emission of that task's
page. -/
def TraceOrdered (tr : List CrawlEvent) : Prop :=
  ∀ t l post pre, tr = post ++ CrawlEvent.pushedLink t l :: pre →
    ∃ p, CrawlEvent.emitted t p ∈ pre

/-! ### A concrete crawl: one worker, a seed page with 202 links

The link graph is finite and acyclic: node 0 (the seed) links to the 202
distinct internal nodes 1..202, none of which links further (203 reachable
nodes).  All links are internal, within depth, and no disallow rules are
configured, so the `follow` closure accepts every link. -/

/-- Node `k` of the example graph. -/
def exNode (k : Nat) : GoURL :=
  { scheme := "http", host := "s", path := "/" ++ toString k, fragment := "" }

/-- The seed task. -/
def exTask0 : Task := ⟨exNode 0, 0⟩

/-- Link to node `k` (discovered on the seed page, so depth 1). -/
def exLink (k : Nat) : Link :=
  { type := "anchor", url := exNode k, external := false, depth := 1 }

/-- The links of the seed page: nodes 1..202. -/
def exLinks : List Link :=
  (List.range 202).map (fun i => exLink (i + 1))

/-- The example fetch behaviour: node 0 yields the 202 links, every other
node yields a page with no links. -/
def exFetch (t : Task) : Page :=
  if t.url = exNode 0 then
    { url := t.url,
      processed := true,
      depth := t.depth,
      links := exLinks.map (fun l => { l with depth := t.depth + 1 }),
      assets := [],
      error := none }
  else
    { url := t.url,
      processed := true,
      depth := t.depth,
      links := [],
      assets := [],
      error := none }

/-- The example environment: `gergle -w 1` on the graph above. -/
def exEnv : CrawlEnv :=
  { fetch := exFetch,
    initUrl := exNode 0,
    maxDepth := 100,
    disallow := [],
    numWorkers := 1 }

/-- The seed page as fetched. -/
def exPage0 : Page := exFetch exTask0

/-- The dedup key of node `k`. -/
def exKey (k : Nat) : String := sanitizeURL (exNode k).render

/-- One round of the filter forwarding a link while the worker refills the
`links` channel: receive, decide, enqueue, push. -/
def exCycle : List CrawlAgent :=
  [.filter, .filter, .filter, .worker 0]

/-- A schedule of `n` rounds of `exCycle`. -/
def exCycles (n : Nat) : List CrawlAgent :=
  (List.range n).flatMap (fun _ => exCycle)

/-- The opening of the schedule: the worker dequeues the seed, emits its
page, and pushes links until the `links` channel is full. -/
def exOpen : List CrawlAgent :=
  [.worker 0, .worker 0] ++ List.replicate 100 (.worker 0)

/-- The closing of the schedule: the filter receives one more link and
blocks sending its task (`pending` is full); the worker pushes one more
link (`links` is full again) and blocks on the next. -/
def exClose : List CrawlAgent :=
  [.filter, .filter, .worker 0]

/-- The full schedule (505 steps). -/
def exSched : List CrawlAgent :=
  exOpen ++ exCycles 45 ++ exCycles 45 ++ exCycles 10 ++ exClose

/-- The crawl state after `exOpen ++ exCycles n` (for `n ≤ 100`): the
worker has pushed `100 + n` links and holds the rest, the filter has
forwarded the first `n` links into `pending`, and the counter stands at
`101 + n`. -/
def exCfg (n : Nat) : CrawlConfig :=
  { pending := (List.range n).map (fun i => ⟨exNode (i + 1), 1⟩),
    linksCh := (exLinks.drop n).take 100,
    unexplored := 101 + n,
    seen := (List.range n).map (fun i => exKey (n - i)) ++ [exKey 0],
    workers := [.pushing exTask0 exPage0 (exLinks.drop (100 + n))],
    filter := .waiting,
    out := [exPage0],
    outClosed := false }

/-- The deadlocked final state: both channels full, the worker blocked on
its 202nd link push, the filter blocked forwarding link 101, the counter
at 202, the output stream never closed. -/
def exFinal : CrawlConfig :=
  { pending := (List.range 100).map (fun i => ⟨exNode (i + 1), 1⟩),
    linksCh := (exLinks.drop 101).take 100,
    unexplored := 202,
    seen := exKey 101 :: ((List.range 100).map (fun i => exKey (100 - i)) ++ [exKey 0]),
    workers := [.pushing exTask0 exPage0 (exLinks.drop 201)],
    filter := .sending (exLink 101),
    out := [exPage0],
    outClosed := false }

end Gergle

/-!
# Theorems

Everything below is proof: first general lemmas about the embedded
definitions, then one theorem per specification claim (with a witness
instantiation whenever the claim's theorem carries hypotheses).
-/

namespace Gergle

/-! ## Lemmas about the URL sanitiser -/

theorem dropWhile_dropWhile (p : Char → Bool) (l : List Char) :
    (l.dropWhile p).dropWhile p = l.dropWhile p := by
  induction l with
  | nil => rfl
  | cons c cs ih =>
    by_cases h : p c
    · simpa [List.dropWhile, h] using ih
    · simp [List.dropWhile, h]

theorem trimRightSlash_idem (l : List Char) :
    trimRightSlash (trimRightSlash l) = trimRightSlash l := by
  unfold trimRightSlash
  rw [List.reverse_reverse, dropWhile_dropWhile]

theorem mem_trimRightSlash {c : Char} {l : List Char}
    (h : c ∈ trimRightSlash l) : c ∈ l := by
  unfold trimRightSlash at h
  rw [List.mem_reverse] at h
  have := (List.dropWhile_sublist (fun c => c = '/') (l := l.reverse)).mem h
  simpa using this

theorem cutAtHash_no_hash (l : List Char) : '#' ∉ cutAtHash l := by
  intro h
  have := List.mem_takeWhile_imp h
  simp at this

theorem cutAtHash_eq_self_of_no_hash {l : List Char} (h : '#' ∉ l) :
    cutAtHash l = l := by
  unfold cutAtHash
  apply List.takeWhile_eq_self_iff.mpr
  intro c hc
  simp only [ne_eq, decide_eq_true_eq]
  intro rfl'
  exact h (rfl' ▸ hc)

theorem sanitizeURL_idem (s : String) :
    sanitizeURL (sanitizeURL s) = sanitizeURL s := by
  unfold sanitizeURL
  congr 1
  have hno : '#' ∉ trimRightSlash (cutAtHash s.data) := by
    intro h
    exact cutAtHash_no_hash s.data (mem_trimRightSlash h)
  rw [show (String.mk (trimRightSlash (cutAtHash s.data))).data
        = trimRightSlash (cutAtHash s.data) from rfl]
  rw [cutAtHash_eq_self_of_no_hash hno, trimRightSlash_idem]

theorem cutAtHash_cons_hash (l : List Char) : cutAtHash ('#' :: l) = [] := rfl

theorem cutAtHash_cons {c : Char} (h : ¬c = '#') (l : List Char) :
    cutAtHash (c :: l) = c :: cutAtHash l := by
  simp [cutAtHash, List.takeWhile, h]

theorem cutAtHash_append (l m : List Char) :
    cutAtHash (l ++ m) = if '#' ∈ l then cutAtHash l else l ++ cutAtHash m := by
  induction l with
  | nil => simp [cutAtHash]
  | cons c cs ih =>
    by_cases h : c = '#'
    · subst h
      rw [List.cons_append, cutAtHash_cons_hash, cutAtHash_cons_hash,
        if_pos (List.mem_cons_self _ _)]
    · rw [List.cons_append, cutAtHash_cons h, ih, cutAtHash_cons h]
      by_cases hm : '#' ∈ cs
      · rw [if_pos hm, if_pos (by simp [hm])]
      · rw [if_neg hm,
          if_neg (by simp only [List.mem_cons, hm, or_false]; exact fun hh => h hh.symm),
          List.cons_append]

/-- Appending a fragment never changes the sanitised form: the fragment is
cut at the first `'#'`. -/
theorem sanitizeURL_fragment (s f : String) :
    sanitizeURL (s ++ "#" ++ f) = sanitizeURL s := by
  unfold sanitizeURL
  congr 1
  obtain ⟨l⟩ := s
  obtain ⟨m⟩ := f
  show trimRightSlash (cutAtHash ((l ++ ['#']) ++ m)) = trimRightSlash (cutAtHash l)
  rw [List.append_assoc, cutAtHash_append l (['#'] ++ m)]
  by_cases h : '#' ∈ l
  · simp [h]
  · simp only [h, if_false]
    have hz : cutAtHash (['#'] ++ m) = [] := rfl
    rw [hz, List.append_nil, cutAtHash_eq_self_of_no_hash h]

/-- Appending a trailing slash never changes the sanitised form. -/
theorem sanitizeURL_trailing_slash (s : String) :
    sanitizeURL (s ++ "/") = sanitizeURL s := by
  unfold sanitizeURL
  congr 1
  obtain ⟨l⟩ := s
  show trimRightSlash (cutAtHash (l ++ ['/'])) = trimRightSlash (cutAtHash l)
  rw [cutAtHash_append l ['/']]
  by_cases h : '#' ∈ l
  · simp [h]
  · simp only [h, if_false]
    rw [cutAtHash_eq_self_of_no_hash (by simp [h] : '#' ∉ l)]
    have hc : cutAtHash ['/'] = ['/'] := rfl
    rw [hc]
    unfold trimRightSlash
    simp [List.dropWhile]

/-- C8: `sanitizeURL` is idempotent, and URLs differing only in a
fragment or a trailing slash canonicalise to the same key; in particular
`/seen`, `/seen/` and `/seen#frag` all map to the one key `/seen`. -/
theorem sanitizeURL_canonical :
    (∀ s : String, sanitizeURL (sanitizeURL s) = sanitizeURL s)
    ∧ (∀ s f : String, sanitizeURL (s ++ "#" ++ f) = sanitizeURL s)
    ∧ (∀ s : String, sanitizeURL (s ++ "/") = sanitizeURL s)
    ∧ sanitizeURL "/seen" = "/seen"
    ∧ sanitizeURL "/seen/" = "/seen"
    ∧ sanitizeURL "/seen#frag" = "/seen" :=
  ⟨sanitizeURL_idem, sanitizeURL_fragment, sanitizeURL_trailing_slash,
    by decide, by decide, by decide⟩

end Gergle

namespace Gergle

/-! ## Lemmas about the follower chain -/

theorem unanimous_follow_nil (link : Link) :
    UnanimousFollower.Follow [] link = none := rfl

theorem unanimous_follow_none_iff (all : UnanimousFollower) (link : Link) :
    UnanimousFollower.Follow all link = none ↔ ∀ f ∈ all, f link = none := by
  induction all with
  | nil => simp [UnanimousFollower.Follow]
  | cons f rest ih =>
    unfold UnanimousFollower.Follow
    cases hf : f link with
    | some err =>
      simp only [List.mem_cons]
      constructor
      · intro h; exact absurd h (by simp)
      · intro h
        have := h f (Or.inl rfl)
        rw [hf] at this
        exact absurd this (by simp)
    | none =>
      rw [ih]
      constructor
      · intro h g hg
        rcases List.mem_cons.mp hg with h1 | h2
        · rw [h1, hf]
        · exact h g h2
      · intro h g hg
        exact h g (List.mem_cons_of_mem _ hg)

theorem unanimous_follow_first_denier (pre post : UnanimousFollower)
    (d : Follower) (link : Link) (e : String)
    (hpre : ∀ f ∈ pre, f link = none) (hd : d link = some e) :
    UnanimousFollower.Follow (pre ++ d :: post) link = some e := by
  induction pre with
  | nil =>
    unfold UnanimousFollower.Follow
    rw [List.nil_append]
    simp [UnanimousFollower.Follow, hd]
  | cons f rest ih =>
    have hf : f link = none := hpre f (List.mem_cons_self _ _)
    unfold UnanimousFollower.Follow
    rw [List.cons_append]
    simp only [hf]
    exact ih (fun g hg => hpre g (List.mem_cons_of_mem _ hg))

/-- C5: the unanimous chain allows a link exactly when every member
allows it; the empty chain allows everything; and when some member
denies, the returned error is that of the first denying member, whatever
the members after it do. -/
theorem unanimousFollower_spec :
    (∀ (all : UnanimousFollower) (link : Link),
      UnanimousFollower.Follow all link = none ↔ ∀ f ∈ all, f link = none)
    ∧ (∀ link : Link, UnanimousFollower.Follow [] link = none)
    ∧ (∀ (pre post : UnanimousFollower) (d : Follower) (link : Link) (e : String),
        (∀ f ∈ pre, f link = none) → d link = some e →
        UnanimousFollower.Follow (pre ++ d :: post) link = some e) :=
  ⟨unanimous_follow_none_iff, unanimous_follow_nil,
    fun pre post d link e hpre hd =>
      unanimous_follow_first_denier pre post d link e hpre hd⟩

/-- Witness for C5: the chain allow/never/allow denies with the middle
member's error, and the all-allow chain allows. -/
theorem unanimousFollower_spec_witness :
    UnanimousFollower.Follow
        [fun _ => none, fun _ => some "no", fun _ => none]
        { type := "anchor", url := ⟨"", "", "/x", ""⟩, external := false, depth := 0 }
      = some "no"
    ∧ UnanimousFollower.Follow []
        { type := "anchor", url := ⟨"", "", "/x", ""⟩, external := false, depth := 0 }
      = none := by
  constructor
  · exact unanimousFollower_spec.2.2 [fun _ => none] [fun _ => none]
      (fun _ => some "no") _ "no"
      (by intro f hf; rw [List.mem_singleton] at hf; rw [hf]) rfl
  · exact unanimousFollower_spec.2.1 _

/-! ## Lemmas about the dedup follower -/

theorem unseen_follow_mem_seen {key : String} (f : UnseenFollower) (l : Link)
    (h : key ∈ f.seen) : key ∈ (f.Follow l).2.seen := by
  unfold UnseenFollower.Follow
  by_cases hs : f.hasSeen (UnseenFollower.sanitizeURL l.url)
  · simpa [hs] using h
  · simp only [hs, if_false, UnseenFollower.recordSeen]
    exact List.mem_cons_of_mem _ h

theorem unseen_follow_denies_of_seen (f : UnseenFollower) (l : Link)
    (h : UnseenFollower.sanitizeURL l.url ∈ f.seen) :
    (f.Follow l).1 = some "Not following seen link" := by
  unfold UnseenFollower.Follow
  have : f.hasSeen (UnseenFollower.sanitizeURL l.url) = true := by
    unfold UnseenFollower.hasSeen
    exact List.elem_eq_true_of_mem h
  simp [this]

theorem unseen_follow_allow_records (f : UnseenFollower) (l : Link)
    (h : (f.Follow l).1 = none) :
    UnseenFollower.sanitizeURL l.url ∈ (f.Follow l).2.seen := by
  unfold UnseenFollower.Follow at *
  by_cases hs : f.hasSeen (UnseenFollower.sanitizeURL l.url)
  · rw [if_pos hs] at h; exact absurd h (by simp)
  · rw [if_neg hs]
    exact List.mem_cons_self _ _

theorem unseen_followSeq_denies_of_seen (ls : List Link) :
    ∀ (f : UnseenFollower) (j : Nat) (l' : Link), ls.get? j = some l' →
    UnseenFollower.sanitizeURL l'.url ∈ f.seen →
    ((f.followSeq ls).1).get? j = some (some "Not following seen link") := by
  induction ls with
  | nil => intro f j l' hj; simp at hj
  | cons hd tl ih =>
    intro f j l' hj hseen
    match j with
    | 0 =>
      rw [List.get?_cons_zero] at hj
      injection hj with hj
      subst hj
      show ((f.Follow hd).1 :: ((f.Follow hd).2.followSeq tl).1).get? 0 = _
      rw [List.get?_cons_zero, unseen_follow_denies_of_seen f hd hseen]
    | j + 1 =>
      rw [List.get?_cons_succ] at hj
      show ((f.Follow hd).1 :: ((f.Follow hd).2.followSeq tl).1).get? (j + 1) = _
      rw [List.get?_cons_succ]
      exact ih _ j l' hj (unseen_follow_mem_seen f hd hseen)

theorem get?_append_length {α : Type} (xs : List α) (y : α) (ys : List α) :
    (xs ++ y :: ys).get? xs.length = some y := by
  induction xs with
  | nil => rfl
  | cons x xt ih => simpa using ih

/-- Each canonicalised URL is allowed at most once across any sequence of
sequential `Follow` calls: an allow at the position of `l1` forces a deny
at the position of any later `l2` with the same canonical key. -/
theorem unseen_followSeq_at_most_once (pre : List Link) :
    ∀ (f : UnseenFollower) (mid post : List Link) (l1 l2 : Link),
    UnseenFollower.sanitizeURL l1.url = UnseenFollower.sanitizeURL l2.url →
    ((f.followSeq (pre ++ l1 :: (mid ++ l2 :: post))).1).get? pre.length = some none →
    ((f.followSeq (pre ++ l1 :: (mid ++ l2 :: post))).1).get? (pre.length + 1 + mid.length)
      = some (some "Not following seen link") := by
  induction pre with
  | nil =>
    intro f mid post l1 l2 hkey hallow
    rw [List.nil_append] at hallow ⊢
    have hcons : (f.followSeq (l1 :: (mid ++ l2 :: post))).1
        = (f.Follow l1).1 :: ((f.Follow l1).2.followSeq (mid ++ l2 :: post)).1 := rfl
    rw [hcons] at hallow ⊢
    rw [List.length_nil, List.get?_cons_zero] at hallow
    injection hallow with hallow
    have hrec := unseen_follow_allow_records f l1 hallow
    rw [hkey] at hrec
    have hidx : ([] : List Link).length + 1 + mid.length = mid.length + 1 := by
      simp [Nat.add_comm]
    rw [hidx, List.get?_cons_succ]
    exact unseen_followSeq_denies_of_seen (mid ++ l2 :: post) _ mid.length l2
      (get?_append_length mid l2 post) hrec
  | cons p pt ih =>
    intro f mid post l1 l2 hkey hallow
    have hcons : (f.followSeq ((p :: pt) ++ l1 :: (mid ++ l2 :: post))).1
        = (f.Follow p).1
          :: ((f.Follow p).2.followSeq (pt ++ l1 :: (mid ++ l2 :: post))).1 := rfl
    rw [hcons] at hallow ⊢
    rw [List.length_cons, List.get?_cons_succ] at hallow
    have hidx : pt.length + 1 + 1 + mid.length = (pt.length + 1 + mid.length) + 1 := by
      omega
    rw [List.length_cons, hidx, List.get?_cons_succ]
    exact ih _ mid post l1 l2 hkey hallow

/-- C6: the dedup follower seeded with `/seen` denies `/seen` (also
with a trailing slash or a fragment); `/unseen/1` is allowed on first
sight and denied on every later call, including with a fragment; and in
general, over any sequence of sequential `Follow` calls, each
canonicalised URL is allowed at most once. -/
theorem unseenFollower_dedup :
    ((NewUnseenFollower [⟨"", "", "/seen", ""⟩]).Follow
        { type := "anchor", url := ⟨"", "", "/seen", ""⟩, external := false, depth := 0 }).1
      = some "Not following seen link"
    ∧ ((NewUnseenFollower [⟨"", "", "/seen", ""⟩]).Follow
        { type := "anchor", url := ⟨"", "", "/seen/", ""⟩, external := false, depth := 0 }).1
      = some "Not following seen link"
    ∧ ((NewUnseenFollower [⟨"", "", "/seen", ""⟩]).Follow
        { type := "anchor", url := ⟨"", "", "/seen", "frag"⟩, external := false, depth := 0 }).1
      = some "Not following seen link"
    ∧ (((NewUnseenFollower [⟨"", "", "/seen", ""⟩]).followSeq
        [{ type := "anchor", url := ⟨"", "", "/unseen/1", ""⟩, external := false, depth := 0 },
         { type := "anchor", url := ⟨"", "", "/unseen/1", ""⟩, external := false, depth := 0 },
         { type := "anchor", url := ⟨"", "", "/unseen/1", "ignored"⟩, external := false, depth := 0 }]).1
      = [none, some "Not following seen link", some "Not following seen link"])
    ∧ (∀ (f : UnseenFollower) (pre mid post : List Link) (l1 l2 : Link),
        UnseenFollower.sanitizeURL l1.url = UnseenFollower.sanitizeURL l2.url →
        ((f.followSeq (pre ++ l1 :: (mid ++ l2 :: post))).1).get? pre.length = some none →
        ((f.followSeq (pre ++ l1 :: (mid ++ l2 :: post))).1).get?
            (pre.length + 1 + mid.length)
          = some (some "Not following seen link")) :=
  ⟨by decide, by decide, by decide, by decide,
    fun f pre mid post l1 l2 hkey hallow =>
      unseen_followSeq_at_most_once pre f mid post l1 l2 hkey hallow⟩

/-- Witness for C6: the at-most-once conjunct at a concrete two-call
sequence on a fresh follower. -/
theorem unseenFollower_dedup_witness :
    ((UnseenFollower.mk []).followSeq
        [{ type := "anchor", url := ⟨"", "", "/a", ""⟩, external := false, depth := 0 },
         { type := "anchor", url := ⟨"", "", "/a", "f"⟩, external := false, depth := 0 }]).1.get? 1
      = some (some "Not following seen link") :=
  unseenFollower_dedup.2.2.2.2 ⟨[]⟩ [] [] []
    { type := "anchor", url := ⟨"", "", "/a", ""⟩, external := false, depth := 0 }
    { type := "anchor", url := ⟨"", "", "/a", "f"⟩, external := false, depth := 0 }
    (by decide) (by decide)

/-- C4 (code bug): the seen-check and the record step of
`UnseenFollower.Follow` are two separately locked critical sections, not
one indivisible step.  Under the interleaving in which both concurrent
invocations run `hasSeen` before either runs `recordSeen`, both calls on
the same previously unseen URL return nil — both are "allowed" — contrary
to the required atomic check-and-set. -/
theorem unseenFollower_race_both_allowed :
    (followPairRace "/new").threadA = .finished none
    ∧ (followPairRace "/new").threadB = .finished none
    ∧ (followPairRace "/new").seen = ["/new", "/new"] := by
  refine ⟨by decide, by decide, by decide⟩

/-- C7 (code bug): `NewRobotsDisallowFollower("/hel.lo", "hello/*/world")`
produces a `Rules` slice of length 4 whose first two entries are nil
`*regexp.Regexp` pointers (`make` pre-sizes the slice, `append` extends
it), and the starred rule compiles to `"^/?hello/*/world"` — the `*`
applies to the preceding `/` — not to the segment wildcard
`"^/?hello/.*/world"` the repository's own test expects; moreover `Follow`
dereferences the first nil rule, a runtime panic, for every link and every
matcher semantics. -/
theorem robotsDisallowFollower_miscompiled :
    NewRobotsDisallowFollower ["/hel.lo", "hello/*/world"]
      = [none, none, some "^/?hel\\.lo", some "^/?hello/*/world"]
    ∧ (NewRobotsDisallowFollower ["/hel.lo", "hello/*/world"]).length ≠ 2
    ∧ (∀ (rxMatch : String → String → Bool) (link : Link),
        RegexpDisallowFollower.Follow rxMatch
          (NewRobotsDisallowFollower ["/hel.lo", "hello/*/world"]) link = none) :=
  ⟨by decide, by decide, fun _ _ => rfl⟩

end Gergle

namespace Gergle

/-! ## The Page invariant -/

theorem pageInvariant_errorPage (u : GoURL) (d : Nat) (e : String) :
    pageInvariant (ErrorPage u d e) := by
  simp [pageInvariant, ErrorPage]

theorem pageInvariant_parse (rx : RegexOracle) (lib : URLLib) (task : Task)
    (resp : Response) : pageInvariant (RegexPageParser.Parse rx lib task resp) := by
  unfold RegexPageParser.Parse
  split
  · exact pageInvariant_errorPage _ _ _
  · split
    · exact pageInvariant_errorPage _ _ _
    · split
      · exact pageInvariant_errorPage _ _ _
      · simp [pageInvariant]

theorem pageInvariant_parsePage (rx : RegexOracle) (lib : URLLib) (u : GoURL)
    (d : Nat) (resp : Response) : pageInvariant (parsePage rx lib u d resp) := by
  unfold parsePage
  split
  · exact pageInvariant_errorPage _ _ _
  · split
    · exact pageInvariant_errorPage _ _ _
    · split
      · exact pageInvariant_errorPage _ _ _
      · simp [pageInvariant]

theorem pageInvariant_mock_lookup (ps : List (String × Page))
    (hps : ∀ kp ∈ ps, pageInvariant kp.2) (u : GoURL) (d : Nat) (k : String) :
    pageInvariant (match ps.lookup k with
      | some page => page
      | none => ErrorPage u d "Page not found") := by
  induction ps with
  | nil => exact pageInvariant_errorPage _ _ _
  | cons kp rest ih =>
    rw [List.lookup_cons]
    cases hk : (k == kp.1) with
    | true =>
      simp only [hk]
      exact hps kp (List.mem_cons_self _ _)
    | false =>
      simp only [hk]
      exact ih (fun q hq => hps q (List.mem_cons_of_mem _ hq))

/-- C2: every `Page` produced by `ErrorPage`, by
`RegexPageParser.Parse`, by `parsePage`, and by each `Fetcher.Fetch`
(`HTTPFetcher` with a parser that keeps the invariant, `MockFetcher` whose
preset pages keep it, and the rate-limited decorator over an inner fetcher
that keeps it) satisfies the central invariant: exactly one of
{`Processed` with no `Error`} and {not `Processed` with `Error` set}, and
no links or assets on failure. -/
theorem page_invariant_holds :
    (∀ (u : GoURL) (d : Nat) (e : String), pageInvariant (ErrorPage u d e))
    ∧ (∀ (rx : RegexOracle) (lib : URLLib) (task : Task) (resp : Response),
        pageInvariant (RegexPageParser.Parse rx lib task resp))
    ∧ (∀ (rx : RegexOracle) (lib : URLLib) (u : GoURL) (d : Nat) (resp : Response),
        pageInvariant (parsePage rx lib u d resp))
    ∧ (∀ h : HTTPFetcher, (∀ t r, pageInvariant (h.parser t r)) →
        ∀ task, pageInvariant (h.Fetch task))
    ∧ (∀ m : MockFetcher, (∀ kp ∈ m.pages, pageInvariant kp.2) →
        ∀ task, pageInvariant (m.Fetch task))
    ∧ (∀ (inner : Task → Page) (task : Task), pageInvariant (inner task) →
        pageInvariant (RateLimitedFetcher.Fetch inner task)) := by
  refine ⟨pageInvariant_errorPage, pageInvariant_parse, pageInvariant_parsePage,
    ?_, ?_, ?_⟩
  · intro h hp task
    unfold HTTPFetcher.Fetch
    cases h.transport task with
    | error e => exact pageInvariant_errorPage _ _ _
    | ok resp => exact hp task resp
  · intro m hm task
    unfold MockFetcher.Fetch
    exact pageInvariant_mock_lookup m.pages hm task.url task.depth _
  · intro inner task hinner
    exact hinner

/-- Witness for C2: a mock fetcher with no preset pages returns the
invariant-respecting `ErrorPage` for any task. -/
theorem page_invariant_holds_witness :
    pageInvariant (MockFetcher.Fetch ⟨[]⟩ ⟨⟨"", "", "/x", ""⟩, 0⟩) :=
  page_invariant_holds.2.2.2.2.1 ⟨[]⟩ (by intro kp hkp; simp at hkp) _

/-! ## The NUL-byte bound on link extraction -/

theorem length_filterMap_of_isSome {α β : Type} (f : α → Option β) :
    ∀ l : List α, (∀ a ∈ l, (f a).isSome) → (l.filterMap f).length = l.length := by
  intro l
  induction l with
  | nil => intro _; rfl
  | cons a rest ih =>
    intro h
    have ha := h a (List.mem_cons_self _ _)
    rw [List.filterMap_cons]
    cases hfa : f a with
    | none => rw [hfa] at ha; simp at ha
    | some b =>
      simp only [List.length_cons]
      rw [ih (fun x hx => h x (List.mem_cons_of_mem _ hx))]

theorem anchorLink_isSome (lib : URLLib) (href : String) (base : GoURL)
    (depth : Nat) : (AnchorLink lib href base depth).isSome = (lib.parse href).isSome := by
  unfold AnchorLink AssetLink
  cases lib.parse href <;> rfl

/-- C10: the number of links `parseLinks` extracts is bounded by the
position of the body's first NUL byte: a NUL at index `n` caps the result
at `n` links (zero when the body starts with NUL), while a NUL-free body
is not truncated — every anchor match whose href parses yields a link —
so otherwise-identical bodies parse to different link lists depending on
NUL placement (demonstrated by the concrete pair at the end). -/
theorem parseLinks_nul_bound :
    (∀ (rx : RegexOracle) (lib : URLLib) (base : GoURL) (body : List Nat)
        (depth n : Nat), goIndexByte body 0 = (n : Int) →
        (parseLinks rx lib base body depth).length ≤ n)
    ∧ (∀ (rx : RegexOracle) (lib : URLLib) (base : GoURL) (body : List Nat)
        (depth : Nat), body.head? = some 0 →
        parseLinks rx lib base body depth = [])
    ∧ (∀ (rx : RegexOracle) (lib : URLLib) (base : GoURL) (body : List Nat)
        (depth : Nat), goIndexByte body 0 = -1 →
        parseLinks rx lib base body depth
          = (rx.anchorHrefs body).filterMap (fun href => AnchorLink lib href base depth))
    ∧ (∀ (rx : RegexOracle) (lib : URLLib) (base : GoURL) (body : List Nat)
        (depth : Nat), goIndexByte body 0 = -1 →
        (∀ href ∈ rx.anchorHrefs body, (lib.parse href).isSome) →
        (parseLinks rx lib base body depth).length = (rx.anchorHrefs body).length)
    ∧ ((parseLinks ⟨fun _ => none, fun _ => ["x", "y"], fun _ => []⟩
          ⟨fun s => some ⟨"", "", s, ""⟩, fun _ u => u⟩ ⟨"", "", "", ""⟩
          [1, 2] 1).length = 2
        ∧ (parseLinks ⟨fun _ => none, fun _ => ["x", "y"], fun _ => []⟩
          ⟨fun s => some ⟨"", "", s, ""⟩, fun _ u => u⟩ ⟨"", "", "", ""⟩
          [1, 0] 1).length = 1
        ∧ parseLinks ⟨fun _ => none, fun _ => ["x", "y"], fun _ => []⟩
          ⟨fun s => some ⟨"", "", s, ""⟩, fun _ u => u⟩ ⟨"", "", "", ""⟩
          [0, 1] 1 = []) := by
  refine ⟨?_, ?_, ?_, ?_, by decide, by decide, by decide⟩
  · intro rx lib base body depth n h
    unfold parseLinks goFindLimit
    rw [h]
    rw [if_neg (by omega : ¬((n : Int) < 0))]
    refine le_trans (List.length_filterMap_le _ _) ?_
    rw [List.length_take]
    omega
  · intro rx lib base body depth h
    cases body with
    | nil => simp at h
    | cons b rest =>
      rw [List.head?_cons] at h
      injection h with h
      subst h
      have hidx : goIndexByte (0 :: rest) 0 = (0 : Int) := by
        unfold goIndexByte
        rw [List.findIdx?_cons]
        norm_num
      unfold parseLinks goFindLimit
      rw [hidx]
      norm_num
  · intro rx lib base body depth h
    unfold parseLinks goFindLimit
    rw [h]
    norm_num
  · intro rx lib base body depth h hp
    unfold parseLinks goFindLimit
    rw [h]
    rw [if_pos (by omega : (-1 : Int) < 0)]
    apply length_filterMap_of_isSome
    intro href hh
    rw [anchorLink_isSome]
    exact hp href hh

/-- Witness for C10: the NUL-at-index-1 bound and the no-NUL count at a
concrete oracle and body. -/
theorem parseLinks_nul_bound_witness :
    (parseLinks ⟨fun _ => none, fun _ => ["x", "y", "z"], fun _ => []⟩
      ⟨fun s => some ⟨"", "", s, ""⟩, fun _ u => u⟩ ⟨"", "", "", ""⟩
      [7, 0, 9] 1).length ≤ 1 :=
  parseLinks_nul_bound.1 _ _ _ [7, 0, 9] 1 1 (by decide)

end Gergle

namespace Gergle

/-! ## Failure isolation in the worker loop -/

/-- C3 (code bug): a transport/connect error *does* escape the per-task
processing as a fatal failure of the crawl.  The worker loop in
`gergle.go` builds the `ErrorPage` for a failed `client.Get`, but then
runs `resp.Body.Close()` unconditionally on the nil response — an
unrecovered nil-pointer panic that crashes the whole process before any
page is emitted: `workerProcess` yields no `Page` at all (`none`) for
every failing transport, every task and every parser oracle.  With a
successful transport the response is handed to `parsePage`, whose
non-200, non-HTML and unreadable-body branches do produce emitted error
pages, as the claim expects. -/
theorem transport_error_escapes_as_panic :
    (∀ (rx : RegexOracle) (lib : URLLib) (task : Task) (e : String),
        workerProcess rx lib (fun _ => .error e) task = none)
    ∧ (∀ (rx : RegexOracle) (lib : URLLib) (task : Task) (resp : Response),
        workerProcess rx lib (fun _ => .ok resp) task
          = some (parsePage rx lib task.url task.depth resp))
    ∧ (∀ (rx : RegexOracle) (lib : URLLib) (task : Task) (ct : String)
        (body : Except String (List Nat)) (u : GoURL),
        workerProcess rx lib (fun _ => .ok ⟨404, ct, body, u⟩) task
          = some (ErrorPage task.url task.depth "Non-200 response"))
    ∧ (∀ (rx : RegexOracle) (lib : URLLib) (task : Task)
        (body : Except String (List Nat)) (u : GoURL),
        workerProcess rx lib (fun _ => .ok ⟨200, "image/png", body, u⟩) task
          = some (ErrorPage task.url task.depth "Doesn't look like HTML"))
    ∧ (∀ (rx : RegexOracle) (lib : URLLib) (task : Task) (e : String) (u : GoURL),
        workerProcess rx lib (fun _ => .ok ⟨200, "text/html", .error e, u⟩) task
          = some (ErrorPage task.url task.depth e))
    ∧ workerProcess ⟨fun _ => none, fun _ => [], fun _ => []⟩
        ⟨fun _ => none, fun _ u => u⟩ (fun _ => .error "connection refused")
        ⟨⟨"http", "h", "/p", ""⟩, 0⟩ = none :=
  ⟨fun _ _ _ _ => rfl, fun _ _ _ _ => rfl, fun _ _ _ _ _ _ => rfl,
    fun rx lib task body u => by
      show some (parsePage rx lib task.url task.depth ⟨200, "image/png", body, u⟩)
        = some (ErrorPage task.url task.depth "Doesn't look like HTML")
      have h1 : goContainsSubstr (goToLower "image/png") "html" = false := by decide
      simp [parsePage, h1],
    fun rx lib task e u => by
      show some (parsePage rx lib task.url task.depth ⟨200, "text/html", .error e, u⟩)
        = some (ErrorPage task.url task.depth e)
      have h1 : goContainsSubstr (goToLower "text/html") "html" = true := by decide
      simp [parsePage, h1],
    rfl⟩

end Gergle

namespace Gergle

/-! ## Per-task ordering: emit before link submission -/

theorem workerPushedInv_mono (ws : List WorkerPhase) (tr : List CrawlEvent)
    (e : CrawlEvent) (h : workerPushedInv ws tr) : workerPushedInv ws (e :: tr) :=
  fun i t p rest hj => List.mem_cons_of_mem _ (h i t p rest hj)

theorem workerPushedInv_set (ws : List WorkerPhase) (i : Nat) (ph : WorkerPhase)
    (e : CrawlEvent) (tr : List CrawlEvent) (h : workerPushedInv ws tr)
    (hph : ∀ t p rest, ph = .pushing t p rest → CrawlEvent.emitted t p ∈ e :: tr) :
    workerPushedInv (ws.set i ph) (e :: tr) := by
  intro j t p rest hj
  by_cases hij : i = j
  · subst hij
    rw [List.get?_set_eq] at hj
    cases hws : ws.get? i with
    | none => rw [hws] at hj; exact Option.noConfusion hj
    | some x =>
      rw [hws] at hj
      have hj2 : some ph = some (WorkerPhase.pushing t p rest) := hj
      injection hj2 with hj2
      exact hph t p rest hj2
  · rw [List.get?_set_ne _ _ hij] at hj
    exact List.mem_cons_of_mem _ (h j t p rest hj)

theorem traceOrdered_cons_of_not_push (e : CrawlEvent) (tr : List CrawlEvent)
    (h : TraceOrdered tr) (he : ∀ t l, e ≠ .pushedLink t l) :
    TraceOrdered (e :: tr) := by
  intro t l post pre hdecomp
  cases post with
  | nil =>
    rw [List.nil_append] at hdecomp
    injection hdecomp with h1 h2
    exact absurd h1 (he t l)
  | cons x post' =>
    rw [List.cons_append] at hdecomp
    injection hdecomp with h1 h2
    exact h t l post' pre h2

theorem traceOrdered_cons_push (t : Task) (l : Link) (p : Page)
    (tr : List CrawlEvent) (h : TraceOrdered tr)
    (hp : CrawlEvent.emitted t p ∈ tr) :
    TraceOrdered (.pushedLink t l :: tr) := by
  intro t' l' post pre hdecomp
  cases post with
  | nil =>
    rw [List.nil_append] at hdecomp
    injection hdecomp with h1 h2
    injection h1 with ht hl
    subst ht
    subst h2
    exact ⟨p, hp⟩
  | cons x post' =>
    rw [List.cons_append] at hdecomp
    injection hdecomp with h1 h2
    exact h t' l' post' pre h2

/-- One crawl step preserves the two trace invariants. -/
theorem crawlStep_preserves (env : CrawlEnv) (c : CrawlConfig) (a : CrawlAgent)
    (s : CrawlConfig × CrawlEvent) (tr : List CrawlEvent)
    (h : crawlStep env c a = some s)
    (h1 : workerPushedInv c.workers tr) (h2 : TraceOrdered tr) :
    workerPushedInv s.1.workers (s.2 :: tr) ∧ TraceOrdered (s.2 :: tr) := by
  cases a with
  | worker i =>
    simp only [crawlStep] at h
    cases hw : c.workers.get? i with
    | none => rw [hw] at h; exact absurd h (by simp)
    | some ph =>
      rw [hw] at h
      cases ph with
      | idle =>
        cases hp : c.pending with
        | nil => rw [hp] at h; exact absurd h (by simp)
        | cons t rest =>
          rw [hp] at h
          injection h with h
          subst h
          refine ⟨workerPushedInv_set _ _ _ _ _ h1 ?_, ?_⟩
          · intro t' p' rest' hcontra; cases hcontra
          · exact traceOrdered_cons_of_not_push _ _ h2 (by intro t' l' hc; cases hc)
      | emitting t p =>
        injection h with h
        subst h
        refine ⟨workerPushedInv_set _ _ _ _ _ h1 ?_, ?_⟩
        · intro t' p' rest' heq
          injection heq with ht hp' hrest
          subst ht; subst hp'
          exact List.mem_cons_self _ _
        · exact traceOrdered_cons_of_not_push _ _ h2 (by intro t' l' hc; cases hc)
      | pushing t p rest =>
        cases rest with
        | nil =>
          injection h with h
          subst h
          refine ⟨workerPushedInv_set _ _ _ _ _ h1 ?_, ?_⟩
          · intro t' p' rest' hcontra; cases hcontra
          · exact traceOrdered_cons_of_not_push _ _ h2 (by intro t' l' hc; cases hc)
        | cons l ls =>
          by_cases hlen : c.linksCh.length < chanCap
          · simp only [if_pos hlen] at h
            injection h with h
            subst h
            have hmem : CrawlEvent.emitted t p ∈ tr := h1 i t p (l :: ls) hw
            refine ⟨workerPushedInv_set _ _ _ _ _ h1 ?_, ?_⟩
            · intro t' p' rest' heq
              injection heq with ht hp' hrest
              subst ht; subst hp'
              exact List.mem_cons_of_mem _ hmem
            · exact traceOrdered_cons_push t l p tr h2 hmem
          · simp only [if_neg hlen] at h
            exact absurd h (by simp)
  | filter =>
    simp only [crawlStep] at h
    cases hf : c.filter with
    | waiting =>
      rw [hf] at h
      cases hl : c.linksCh with
      | nil => rw [hl] at h; exact absurd h (by simp)
      | cons l rest =>
        rw [hl] at h
        injection h with h
        subst h
        exact ⟨workerPushedInv_mono _ _ _ h1,
          traceOrdered_cons_of_not_push _ _ h2 (by intro t' l' hc; cases hc)⟩
    | deciding l =>
      rw [hf] at h
      by_cases hfp : (!followPolicy env l) = true
      · simp only [if_pos hfp] at h
        injection h with h
        subst h
        exact ⟨workerPushedInv_mono _ _ _ h1,
          traceOrdered_cons_of_not_push _ _ h2 (by intro t' l' hc; cases hc)⟩
      · simp only [if_neg hfp] at h
        by_cases hsn : c.seen.contains (sanitizeURL l.url.render) = true
        · simp only [if_pos hsn] at h
          injection h with h
          subst h
          exact ⟨workerPushedInv_mono _ _ _ h1,
            traceOrdered_cons_of_not_push _ _ h2 (by intro t' l' hc; cases hc)⟩
        · simp only [if_neg hsn] at h
          injection h with h
          subst h
          exact ⟨workerPushedInv_mono _ _ _ h1,
            traceOrdered_cons_of_not_push _ _ h2 (by intro t' l' hc; cases hc)⟩
    | sending l =>
      rw [hf] at h
      by_cases hlen : c.pending.length < chanCap
      · simp only [if_pos hlen] at h
        injection h with h
        subst h
        exact ⟨workerPushedInv_mono _ _ _ h1,
          traceOrdered_cons_of_not_push _ _ h2 (by intro t' l' hc; cases hc)⟩
      · simp only [if_neg hlen] at h
        exact absurd h (by simp)
  | closer =>
    simp only [crawlStep] at h
    by_cases hcl : (c.unexplored = 0 && !c.outClosed) = true
    · simp only [if_pos hcl] at h
      injection h with h
      subst h
      exact ⟨workerPushedInv_mono _ _ _ h1,
        traceOrdered_cons_of_not_push _ _ h2 (by intro t' l' hc; cases hc)⟩
    · simp only [if_neg hcl] at h
      exact absurd h (by simp)

/-- A whole run preserves the two trace invariants. -/
theorem crawlRunT_preserves (env : CrawlEnv) (sched : List CrawlAgent) :
    ∀ (c : CrawlConfig) (tr : List CrawlEvent),
    workerPushedInv c.workers tr → TraceOrdered tr →
    workerPushedInv (crawlRunT env c tr sched).1.workers (crawlRunT env c tr sched).2
      ∧ TraceOrdered (crawlRunT env c tr sched).2 := by
  induction sched with
  | nil => intro c tr h1 h2; exact ⟨h1, h2⟩
  | cons a rest ih =>
    intro c tr h1 h2
    unfold crawlRunT
    cases hs : crawlStep env c a with
    | none => exact ih c tr h1 h2
    | some s =>
      obtain ⟨hW, hT⟩ := crawlStep_preserves env c a s tr hs h1 h2
      exact ih s.1 (s.2 :: tr) hW hT

/-- C9: in every execution (every schedule) of the crawl, the
submission of a link of a task's page to the link channel (where the
follower evaluation and re-enqueueing happen) is strictly preceded in the
trace by the emission of that task's page to the output stream. -/
theorem page_emitted_before_links (env : CrawlEnv) (sched : List CrawlAgent)
    (t : Task) (l : Link) (post pre : List CrawlEvent)
    (h : (crawlExec env sched).2 = post ++ CrawlEvent.pushedLink t l :: pre) :
    ∃ p, CrawlEvent.emitted t p ∈ pre := by
  have hinit1 : workerPushedInv (crawlInit env).workers [] := by
    intro i t' p' rest' hj
    have hmem : WorkerPhase.pushing t' p' rest'
        ∈ List.replicate env.numWorkers WorkerPhase.idle := by
      simpa [crawlInit] using List.get?_mem hj
    exact WorkerPhase.noConfusion (List.eq_of_mem_replicate hmem)
  have hinit2 : TraceOrdered ([] : List CrawlEvent) := by
    intro t' l' post' pre' hdec
    exact absurd hdec.symm (by simp)
  have := crawlRunT_preserves env sched (crawlInit env) [] hinit1 hinit2
  exact this.2 t l post pre h

/-- Witness for C9: a three-step run (dequeue, emit, push) of a one-page
graph; the push event decomposes the trace with the emit event in its
past. -/
theorem page_emitted_before_links_witness :
    ∃ p, CrawlEvent.emitted ⟨⟨"http", "h", "/s", ""⟩, 0⟩ p ∈
      ([CrawlEvent.emitted ⟨⟨"http", "h", "/s", ""⟩, 0⟩
          { url := ⟨"http", "h", "/s", ""⟩, processed := true, depth := 0,
            links := [⟨"anchor", ⟨"http", "h", "/a", ""⟩, false, 1⟩],
            assets := [], error := none },
        CrawlEvent.taken ⟨⟨"http", "h", "/s", ""⟩, 0⟩] : List CrawlEvent) :=
  page_emitted_before_links
    { fetch := fun tk =>
        { url := tk.url, processed := true, depth := tk.depth,
          links := [⟨"anchor", ⟨"http", "h", "/a", ""⟩, false, 1⟩],
          assets := [], error := none },
      initUrl := ⟨"http", "h", "/s", ""⟩, maxDepth := 100,
      disallow := [], numWorkers := 1 }
    [.worker 0, .worker 0, .worker 0]
    ⟨⟨"http", "h", "/s", ""⟩, 0⟩
    ⟨"anchor", ⟨"http", "h", "/a", ""⟩, false, 1⟩
    [] _ rfl

end Gergle

namespace Gergle

/-! ## The deadlocking crawl -/

theorem crawlRun_append (env : CrawlEnv) (s1 s2 : List CrawlAgent) :
    ∀ c : CrawlConfig, crawlRun env c (s1 ++ s2) = crawlRun env (crawlRun env c s1) s2 := by
  induction s1 with
  | nil => intro c; rfl
  | cons a rest ih =>
    intro c
    rw [List.cons_append]
    exact ih (match crawlStep env c a with | some s => s.1 | none => c)

set_option maxRecDepth 100000 in
set_option maxHeartbeats 2000000 in
theorem exSeg0 : crawlRun exEnv (crawlInit exEnv) exOpen = exCfg 0 := by rfl

set_option maxRecDepth 100000 in
set_option maxHeartbeats 2000000 in
theorem exSeg1 : crawlRun exEnv (exCfg 0) (exCycles 45) = exCfg 45 := by rfl

set_option maxRecDepth 100000 in
set_option maxHeartbeats 2000000 in
theorem exSeg2 : crawlRun exEnv (exCfg 45) (exCycles 45) = exCfg 90 := by rfl

set_option maxRecDepth 100000 in
set_option maxHeartbeats 2000000 in
theorem exSeg3 : crawlRun exEnv (exCfg 90) (exCycles 10) = exCfg 100 := by rfl

set_option maxRecDepth 100000 in
set_option maxHeartbeats 2000000 in
theorem exSeg4 : crawlRun exEnv (exCfg 100) exClose = exFinal := by rfl

/-- The 505-step fair schedule drives the example crawl into `exFinal`. -/
theorem exRun_eq : crawlRun exEnv (crawlInit exEnv) exSched = exFinal := by
  show crawlRun exEnv (crawlInit exEnv)
      ((((exOpen ++ exCycles 45) ++ exCycles 45) ++ exCycles 10) ++ exClose) = exFinal
  rw [crawlRun_append, crawlRun_append, crawlRun_append, crawlRun_append,
    exSeg0, exSeg1, exSeg2, exSeg3, exSeg4]

set_option maxRecDepth 100000 in
/-- C1 (code bug): the crawl does *not* emit one `Page` per reachable
node and close its output stream on every finite acyclic graph and worker
count.  On the 203-node acyclic graph in which the seed links to 202
distinct internal pages, with one worker, the schedule `exSched` drives
`crawl` into a state where every goroutine is permanently blocked — the
worker mid-send on the full 100-capacity `links` channel, the filter
mid-send on the full 100-capacity `pending` channel, the closer waiting on
counter 202 — after emitting only the seed page and without ever closing
the output stream. -/
theorem crawl_deadlocks_on_wide_page :
    crawlBlocked exEnv (crawlRun exEnv (crawlInit exEnv) exSched) = true
    ∧ (crawlRun exEnv (crawlInit exEnv) exSched).outClosed = false
    ∧ (crawlRun exEnv (crawlInit exEnv) exSched).out = [exPage0]
    ∧ (crawlRun exEnv (crawlInit exEnv) exSched).unexplored = 202 := by
  refine ⟨?_, ?_, ?_, ?_⟩ <;> rw [exRun_eq]
  · decide
  · rfl
  · rfl
  · rfl

end Gergle
